import Mathlib

/-!
Verification of the orchestration core of miva_automation_ultimate.py.

Shallow embedding conventions: Python dicts are insertion-ordered
association lists, the float completion percentage is an exact rational,
timestamps produced by datetime.now() are opaque strings threaded in as
explicit arguments, the JSON backing file is abstracted as a parse
outcome, and the outcome of one browser-side processing attempt is given
by an oracle (none = the attempt succeeded, some e = the attempt raised
an exception whose message is e).
-/

/- ===================== string helpers (Python semantics) ============== -/

/-- Characters of the needle occur consecutively inside the haystack. -/
def isSubListOf : List Char → List Char → Bool
  | needle, [] => needle.isEmpty
  | needle, c :: rest => needle.isPrefixOf (c :: rest) || isSubListOf needle rest

/-- Python membership test on strings: needle in hay. -/
def strIn (needle hay : String) : Bool := isSubListOf needle.toList hay.toList

/-- Python s.startswith(p). -/
def strStartsWith (s p : String) : Bool := p.toList.isPrefixOf s.toList

/-- Python s.lower() restricted to the ascii arguments the code passes. -/
def lowerStr (s : String) : String := String.mk (s.toList.map Char.toLower)

/- ===================== CONFIG constants =============================== -/

/-- CONFIG base_url. -/
def base_url : String := "https://lms.miva.university"

/-- CONFIG max_retries. -/
def max_retries : ℕ := 3

/-- CONFIG parallel_tabs. -/
def parallel_tabs : ℕ := 4

/-- CONFIG skip_patterns. -/
def skip_patterns : List String := ["/mod/quiz/", "/mod/assign/"]

/- ===================== ledger data model ============================== -/

/-- One record appended by ProgressManager.mark_activity_failed. -/
structure FailureRecord where
  url : String
  error : String
  timestamp : String
deriving DecidableEq

/-- Per-course persisted record, in the default shape created by
ProgressManager.get_course_progress. -/
structure CourseProgress where
  name : String
  status : String
  completed_activities : List String
  failed_activities : List FailureRecord
  total_activities : ℕ
  last_activity_index : ℕ
deriving DecidableEq

/-- The global_stats sub-document of the ledger. -/
structure GlobalStats where
  total_completed : ℕ
  total_skipped : ℕ
  total_failed : ℕ
deriving DecidableEq

/-- The full persisted ledger document. -/
structure GlobalProgress where
  last_run : Option String
  courses : List (String × CourseProgress)
  global_stats : GlobalStats
deriving DecidableEq

/-- Default per-course record inserted by get_course_progress. -/
def defaultCourseProgress : CourseProgress :=
  { name := "", status := "not_started", completed_activities := [],
    failed_activities := [], total_activities := 0, last_activity_index := 0 }

/-- Default ledger document built by ProgressManager.load when the file is
absent. -/
def defaultGlobalProgress : GlobalProgress :=
  { last_run := none, courses := [],
    global_stats := { total_completed := 0, total_skipped := 0, total_failed := 0 } }

/-- ProgressManager.load.  The backing file is abstracted as none (file
absent) or some r, where r is the outcome of json.load on the file: ok d
for a parseable document and error e for an unparseable one (a
present-but-empty file is unparseable, since the json parser raises on
empty input).  The method has no exception handler, so a parse failure
propagates unchanged. -/
def ProgressManager.load (file : Option (Except String GlobalProgress)) :
    Except String GlobalProgress :=
  match file with
  | some parsed => parsed
  | none => Except.ok defaultGlobalProgress

/-- In-memory state of a ProgressManager: the loaded document plus a count
of completed backing-file writes (calls of ProgressManager.save). -/
structure PM where
  data : GlobalProgress
  fileWrites : ℕ
deriving DecidableEq

/-- State of a manager freshly constructed over an absent file. -/
def initialPM : PM := { data := defaultGlobalProgress, fileWrites := 0 }

/-- Key lookup in a Python dict with string keys. -/
def lookupA : List (String × CourseProgress) → String → Option CourseProgress
  | [], _ => none
  | (k, v) :: rest, key => if k = key then some v else lookupA rest key

/-- In-place replacement of the value stored under an existing key. -/
def updateAssoc : List (String × CourseProgress) → String → CourseProgress →
    List (String × CourseProgress)
  | [], _, _ => []
  | (k, v) :: rest, key, c =>
    if k = key then (k, c) :: rest else (k, v) :: updateAssoc rest key c

/-- ProgressManager.save: stamps last_run and rewrites the whole file. -/
def PM.save (s : PM) (now : String) : PM :=
  { data := { s.data with last_run := some now }, fileWrites := s.fileWrites + 1 }

/-- ProgressManager.get_course_progress: returns the record of the course,
first inserting a fresh default record into the in-memory document when the
course id is absent. -/
def get_course_progress (s : PM) (cid : String) : CourseProgress × PM :=
  match lookupA s.data.courses cid with
  | some c => (c, s)
  | none =>
    (defaultCourseProgress,
      { s with data := { s.data with
          courses := s.data.courses ++ [(cid, defaultCourseProgress)] } })

/-- Record of a course as visible in a document, default when absent; used
to state properties about ledger states. -/
def courseOf (s : PM) (cid : String) : CourseProgress :=
  (lookupA s.data.courses cid).getD defaultCourseProgress

/-- Shared shape of the two mutators: fetch the record (creating it if
needed), transform it in place, then save. -/
def modifyCourse (s : PM) (cid : String) (f : CourseProgress → CourseProgress)
    (now : String) : PM :=
  let r := get_course_progress s cid
  PM.save
    { r.2 with data := { r.2.data with
        courses := updateAssoc r.2.data.courses cid (f r.1) } } now

/-- ProgressManager.mark_activity_completed. -/
def mark_activity_completed (s : PM) (cid activity_url now : String) : PM :=
  modifyCourse s cid
    (fun c =>
      if activity_url ∈ c.completed_activities then c
      else { c with completed_activities := c.completed_activities ++ [activity_url] })
    now

/-- ProgressManager.mark_activity_failed. -/
def mark_activity_failed (s : PM) (cid activity_url error now : String) : PM :=
  modifyCourse s cid
    (fun c => { c with failed_activities := c.failed_activities ++
        [{ url := activity_url, error := error, timestamp := now }] })
    now

/-- ProgressManager.is_activity_completed. -/
def is_activity_completed (s : PM) (cid activity_url : String) : Bool × PM :=
  let r := get_course_progress s cid
  (decide (activity_url ∈ r.1.completed_activities), r.2)

/-- ProgressManager.get_course_completion_percent, the float modelled as an
exact rational. -/
def get_course_completion_percent (s : PM) (cid : String) : ℚ × PM :=
  let r := get_course_progress s cid
  if r.1.total_activities = 0 then (0, r.2)
  else ((r.1.completed_activities.length : ℚ) / (r.1.total_activities : ℚ) * 100, r.2)

/- ===================== course prioritizer ============================= -/

/-- Course descriptor produced by discover_courses. -/
structure Course where
  name : String
  url : String
  id : String
deriving DecidableEq

/-- Annotation step of prioritize_courses: the priority bucket and the
recorded completion attached to one course (fields underscore-priority and
underscore-completion in the source). -/
def annotateCourse (s : PM) (c : Course) : (Course × ℕ × ℚ) × PM :=
  let r := get_course_completion_percent s c.id
  if 100 ≤ r.1 then ((c, 3, r.1), r.2)
  else if 0 < r.1 then ((c, 1, r.1), r.2)
  else ((c, 2, 0), r.2)

/-- Annotation of the whole course list, threading the manager state through
the per-course completion lookups. -/
def annotateCourses (s : PM) : List Course → List (Course × ℕ × ℚ) × PM
  | [] => ([], s)
  | c :: rest =>
    let a := annotateCourse s c
    let tail := annotateCourses a.2 rest
    (a.1 :: tail.1, tail.2)

/-- The Python sort key (priority, -completion), as a lexicographic order
relation: ascending priority, then descending completion. -/
def priorityLE (a b : Course × ℕ × ℚ) : Prop :=
  a.2.1 < b.2.1 ∨ (a.2.1 = b.2.1 ∧ b.2.2 ≤ a.2.2)

instance : DecidableRel priorityLE := fun a b => by
  unfold priorityLE
  exact inferInstance

instance : IsTotal (Course × ℕ × ℚ) priorityLE :=
  ⟨by
    intro a b
    unfold priorityLE
    rcases Nat.lt_trichotomy a.2.1 b.2.1 with h | h | h
    · exact Or.inl (Or.inl h)
    · rcases le_total a.2.2 b.2.2 with h2 | h2
      · exact Or.inr (Or.inr ⟨h.symm, h2⟩)
      · exact Or.inl (Or.inr ⟨h, h2⟩)
    · exact Or.inr (Or.inl h)⟩

instance : IsTrans (Course × ℕ × ℚ) priorityLE :=
  ⟨by
    intro a b c hab hbc
    unfold priorityLE at hab hbc ⊢
    rcases hab with h | ⟨h1, h2⟩ <;> rcases hbc with g | ⟨g1, g2⟩
    · exact Or.inl (h.trans g)
    · exact Or.inl (by omega)
    · exact Or.inl (by omega)
    · exact Or.inr ⟨h1.trans g1, g2.trans h2⟩⟩

/-- The sorted annotated list: Python sorted is a stable sort and is
modelled by insertion sort over the lexicographic key order, which is the
unique stable sort for that order. -/
def prioritizedAnn (s : PM) (courses : List Course) : List (Course × ℕ × ℚ) :=
  List.insertionSort priorityLE (annotateCourses s courses).1

/-- ProgressManager.prioritize_courses. -/
def prioritize_courses (s : PM) (courses : List Course) : List Course × PM :=
  ((prioritizedAnn s courses).map (fun a => a.1), (annotateCourses s courses).2)

/- ===================== statistics tracker ============================= -/

/-- Statistics counters and lists touched by the activity pipeline. -/
structure Stats where
  activities_completed : ℕ
  activities_skipped : ℕ
  activities_failed : ℕ
  quizzes_found : List (String × String)
  assignments_found : List (String × String)
  errors : List (String × String)
  completed_activities : List (String × String × String × String)
deriving DecidableEq

/-- Statistics.log_completed. -/
def Stats.log_completed (st : Stats) (course activity ty now : String) : Stats :=
  { st with activities_completed := st.activities_completed + 1,
            completed_activities := st.completed_activities ++ [(course, activity, ty, now)] }

/-- Statistics.log_skipped. -/
def Stats.log_skipped (st : Stats) (course activity ty : String) : Stats :=
  let st1 := { st with activities_skipped := st.activities_skipped + 1 }
  if strIn "quiz" (lowerStr ty) then
    { st1 with quizzes_found := st1.quizzes_found ++ [(course, activity)] }
  else if strIn "assign" (lowerStr ty) then
    { st1 with assignments_found := st1.assignments_found ++ [(course, activity)] }
  else st1

/-- Statistics.log_error. -/
def Stats.log_error (st : Stats) (message now : String) : Stats :=
  { st with errors := st.errors ++ [(message, now)],
            activities_failed := st.activities_failed + 1 }

/- ===================== activities and discovery ======================= -/

/-- Activity descriptor produced by discover_activities. -/
structure Activity where
  name : String
  url : String
  type : String
  should_skip : Bool
  is_completed : Bool
deriving DecidableEq

/-- The url stored in an activity descriptor: the raw href, base-prefixed
when the href is relative (discover_activities line 515). -/
def activityUrlOf (href : String) : String :=
  if strStartsWith href "http" then href else base_url ++ href

/-- First-match classification of the activity type from the href
(discover_activities lines 502-505). -/
def activityTypeOf (href : String) : String :=
  if strIn "/mod/page/" href then "page"
  else if strIn "/mod/url/" href then "url"
  else if strIn "/mod/quiz/" href then "quiz"
  else if strIn "/mod/assign/" href then "assign"
  else if strIn "/mod/forum/" href then "forum"
  else if strIn "/mod/book/" href then "book"
  else "unknown"

/-- Skip eligibility: the href matches any configured skip pattern. -/
def shouldSkipOf (href : String) : Bool :=
  skip_patterns.any (fun p => strIn p href)

/-- Construction of one discovered activity descriptor (loop body of
discover_activities, lines 490-519): the stored url is base-prefixed when
the discovered href is relative, while the completion lookup is performed
with the raw href. -/
def discoverActivity (s : PM) (cid href name : String) : Activity × PM :=
  let r := is_activity_completed s cid href
  ({ name := name, url := activityUrlOf href, type := activityTypeOf href,
     should_skip := shouldSkipOf href, is_completed := r.1 }, r.2)

/- ===================== retry controller =============================== -/

/-- Joint mutable state seen by the activity processors. -/
structure W where
  stats : Stats
  pm : PM
deriving DecidableEq

/-- Statistics label reported by the processor the dispatch picks for an
activity type; unknown types fall through to process_page. -/
def processTypeLabel (ty : String) : String :=
  if ty = "page" then "page"
  else if ty = "url" then "url"
  else if ty = "forum" then "forum"
  else "page"

/-- Effect of one successful processing attempt (tail of process_page,
process_url and process_forum): stats.log_completed followed by
progress.mark_activity_completed with the stored activity url. -/
def attemptSuccess (w : W) (a : Activity) (course_name cid now : String) : W :=
  { stats := w.stats.log_completed course_name a.name (processTypeLabel a.type) now,
    pm := mark_activity_completed w.pm cid a.url now }

/-- Effect of exhausting all retries (lines 654-658): stats.log_error with
the formatted message, then progress.mark_activity_failed with the message
of the last exception.  The screenshot is an external side effect with no
ledger state. -/
def attemptFail (w : W) (a : Activity) (course_name cid now err : String) : W :=
  { stats := w.stats.log_error (a.type ++ " error in " ++ course_name ++ ": " ++ a.name) now,
    pm := mark_activity_failed w.pm cid a.url err now }

/-- Observable outcome of process_activity_with_retry: the returned boolean,
the final state, the number of attempts executed, and the durations of the
fixed pauses slept between attempts (each asyncio.sleep one second). -/
structure RetryOutcome where
  ok : Bool
  w : W
  attempts : ℕ
  sleeps : List ℚ
deriving DecidableEq

/-- The retry loop, for attempt in range(1, max_retries + 1): remaining
counts the iterations the range still holds, so the initial call passes
max_retries.  The oracle gives the outcome of each attempt. -/
def retryLoop (oracle : ℕ → Option String) (a : Activity)
    (course_name cid now : String) : ℕ → ℕ → W → RetryOutcome
  | _, 0, w => ⟨false, w, 0, []⟩
  | attempt, remaining + 1, w =>
    match oracle attempt with
    | none => ⟨true, attemptSuccess w a course_name cid now, 1, []⟩
    | some e =>
      if attempt < max_retries then
        let r := retryLoop oracle a course_name cid now (attempt + 1) remaining w
        ⟨r.ok, r.w, r.attempts + 1, 1 :: r.sleeps⟩
      else ⟨false, attemptFail w a course_name cid now e, 1, []⟩

/-- process_activity_with_retry (lines 619-661). -/
def process_activity_with_retry (oracle : ℕ → Option String) (w : W)
    (a : Activity) (course_name cid now : String) : RetryOutcome :=
  if a.is_completed then ⟨true, w, 0, []⟩
  else if a.should_skip then
    let st :=
      if strIn "quiz" a.type then w.stats.log_skipped course_name a.name "quiz"
      else if strIn "assign" a.type then w.stats.log_skipped course_name a.name "assignment"
      else w.stats
    ⟨true, { w with stats := st }, 0, []⟩
  else retryLoop oracle a course_name cid now 1 max_retries w

/- ===================== course status update =========================== -/

/-- Course status update of process_course (lines 752-758): recompute the
completion percent, set the status for a complete or an in-progress course,
then persist.  There is no branch for a course at zero percent. -/
def update_course_status (s : PM) (cid now : String) : PM :=
  let r := get_course_completion_percent s cid
  if 100 ≤ r.1 then
    modifyCourse r.2 cid (fun c => { c with status := "completed" }) now
  else if 0 < r.1 then
    modifyCourse r.2 cid (fun c => { c with status := "in_progress" }) now
  else
    PM.save r.2 now

/- ===================== batch scheduler ================================ -/

/-- Filter step of process_activities_parallel (line 671). -/
def toProcess (activities : List Activity) : List Activity :=
  activities.filter (fun a => !a.is_completed && !a.should_skip)

/-- Fuel-indexed slicing loop; the fuel is an upper bound on the list
length, so the public wrapper below always supplies enough. -/
def chunksGo : ℕ → ℕ → List Activity → List (List Activity)
  | _, _, [] => []
  | _, 0, _ :: _ => []
  | 0, _ + 1, _ :: _ => []
  | fuel + 1, k + 1, x :: xs =>
    List.take (k + 1) (x :: xs) :: chunksGo fuel (k + 1) (List.drop (k + 1) (x :: xs))

/-- Consecutive slices l[i : i + k] for i = 0, k, 2k, ... — the batch loop
at line 680.  A zero width never arises: range with a zero step raises in
Python and the configured width is parallel_tabs = 4. -/
def chunksOf (k : ℕ) (l : List Activity) : List (List Activity) :=
  chunksGo l.length k l

/-- The batches the scheduler runs for a course: filter, then slice. -/
def batchesOf (k : ℕ) (activities : List Activity) : List (List Activity) :=
  chunksOf k (toProcess activities)

/-- Scheduling events of one course run: an item of a batch starting its
processing, or reaching a terminal state (success or exhausted failure). -/
inductive BatchEv where
  | start (batchIdx itemIdx : ℕ)
  | terminal (batchIdx itemIdx : ℕ)
deriving DecidableEq

/-- Batch an event belongs to. -/
def BatchEv.batchIdx : BatchEv → ℕ
  | .start b _ => b
  | .terminal b _ => b

/-- One admissible interleaving of the events of batch bi holding n items:
every event belongs to the batch, every item starts and reaches a terminal
state, and each item starts before it terminates.  Within the batch the
interleaving is otherwise unconstrained (asyncio.gather guarantees no
ordering between sibling tasks). -/
def BatchTrace (bi n : ℕ) (evs : List BatchEv) : Prop :=
  (∀ e ∈ evs, e.batchIdx = bi) ∧
  (∀ j, j < n → BatchEv.start bi j ∈ evs ∧ BatchEv.terminal bi j ∈ evs) ∧
  (∀ (j m m' : ℕ), evs[m]? = some (BatchEv.start bi j) →
    evs[m']? = some (BatchEv.terminal bi j) → m < m')

/-- Admissible execution traces of the batch loop: per-batch event blocks
concatenated in batch order, because asyncio.gather is awaited before the
loop advances to the next slice. -/
def IsSchedule (k : ℕ) (activities : List Activity) (t : List BatchEv) : Prop :=
  ∃ parts : List (List BatchEv),
    t = parts.flatten ∧
    parts.length = (batchesOf k activities).length ∧
    ∀ i (hi : i < parts.length) (hb : i < (batchesOf k activities).length),
      BatchTrace i ((batchesOf k activities).get ⟨i, hb⟩).length (parts.get ⟨i, hi⟩)

/- ===================== concrete example states ======================== -/

/-- Ledger state holding the given course table, no prior write. -/
def pmWithCourses (cs : List (String × CourseProgress)) : PM :=
  { data := { defaultGlobalProgress with courses := cs }, fileWrites := 0 }

/-- Course record with the given completed urls and total count, otherwise
default. -/
def courseRec (completed : List String) (total : ℕ) : CourseProgress :=
  { defaultCourseProgress with
      completed_activities := completed, total_activities := total }

/-- Ledger state with a course at two recorded completions over a single
discovered activity: the completion percent evaluates above the claimed
bound. -/
def overfullPM : PM := pmWithCourses [("c", courseRec ["a", "b"] 1)]

/-- Ledger state with a course known to hold four activities, none of them
completed yet. -/
def zeroPctPM : PM := pmWithCourses [("c", courseRec [] 4)]

/-- Ledger state with a course at one of two activities completed. -/
def halfPM : PM := pmWithCourses [("c", courseRec ["u"] 2)]

/-- Ledger with course A at forty percent and course B untouched. -/
def fortyZeroPM : PM :=
  pmWithCourses [("A", courseRec ["u1", "u2"] 5), ("B", courseRec [] 3)]

/-- Course A of the resume-stability scenario. -/
def courseA : Course := { name := "Course A", url := "uA", id := "A" }

/-- Course B of the resume-stability scenario. -/
def courseB : Course := { name := "Course B", url := "uB", id := "B" }

/-- A processable page activity that is neither completed nor skipped. -/
def freshPageActivity : Activity :=
  { name := "Act", url := "https://lms.miva.university/mod/page/view.php?id=9",
    type := "page", should_skip := false, is_completed := false }

/-- A quiz activity, skip-eligible and not yet completed. -/
def quizActivity : Activity :=
  { name := "Quiz 1", url := "https://lms.miva.university/mod/quiz/view.php?id=3",
    type := "quiz", should_skip := true, is_completed := false }

/-- Empty statistics, as constructed at process start. -/
def stats0 : Stats :=
  { activities_completed := 0, activities_skipped := 0, activities_failed := 0,
    quizzes_found := [], assignments_found := [], errors := [],
    completed_activities := [] }

/-- Joint state at process start. -/
def w0 : W := { stats := stats0, pm := initialPM }

/-- A fresh processable activity named after its url. -/
def freshA (nm : String) : Activity :=
  { name := nm, url := nm, type := "page", should_skip := false, is_completed := false }

/-- Five outstanding activities for the batch-size scenario. -/
def fiveFresh : List Activity :=
  [freshA "a1", freshA "a2", freshA "a3", freshA "a4", freshA "a5"]

/- ===================== association-list lemmas ======================== -/

theorem lookupA_append_self (l : List (String × CourseProgress)) (k : String)
    (c : CourseProgress) (h : lookupA l k = none) :
    lookupA (l ++ [(k, c)]) k = some c := by
  induction l with
  | nil => simp [lookupA]
  | cons hd t ih =>
    obtain ⟨k0, v0⟩ := hd
    by_cases hk : k0 = k
    · simp [lookupA, hk] at h
    · simp only [List.cons_append, lookupA, if_neg hk] at h ⊢
      exact ih h

theorem updateAssoc_lookup_self (l : List (String × CourseProgress)) (k : String)
    (c v : CourseProgress) (h : lookupA l k = some v) :
    lookupA (updateAssoc l k c) k = some c := by
  induction l with
  | nil => simp [lookupA] at h
  | cons hd t ih =>
    obtain ⟨k0, v0⟩ := hd
    by_cases hk : k0 = k
    · simp [updateAssoc, lookupA, hk]
    · simp only [lookupA, if_neg hk] at h
      simp only [updateAssoc, if_neg hk, lookupA]
      exact ih h

/- ===================== progress-manager lemmas ======================== -/

theorem get_course_progress_fst (s : PM) (cid : String) :
    (get_course_progress s cid).1 = courseOf s cid := by
  rcases h : lookupA s.data.courses cid with _ | c <;>
    simp [get_course_progress, courseOf, h]

theorem get_course_progress_lookup (s : PM) (cid : String) :
    lookupA (get_course_progress s cid).2.data.courses cid = some (courseOf s cid) := by
  rcases h : lookupA s.data.courses cid with _ | c
  · simp [get_course_progress, courseOf, h, lookupA_append_self _ _ _ h]
  · simp [get_course_progress, courseOf, h]

theorem get_course_progress_fileWrites (s : PM) (cid : String) :
    (get_course_progress s cid).2.fileWrites = s.fileWrites := by
  rcases h : lookupA s.data.courses cid with _ | c <;> simp [get_course_progress, h]

theorem courseOf_gcp (s : PM) (cid : String) :
    courseOf (get_course_progress s cid).2 cid = courseOf s cid := by
  unfold courseOf
  rw [get_course_progress_lookup]
  rfl

theorem courseOf_save (s : PM) (cid now : String) :
    courseOf (PM.save s now) cid = courseOf s cid := rfl

theorem courseOf_modifyCourse_self (s : PM) (cid : String)
    (f : CourseProgress → CourseProgress) (now : String) :
    courseOf (modifyCourse s cid f now) cid = f (courseOf s cid) := by
  unfold modifyCourse courseOf PM.save
  simp only [get_course_progress_fst]
  rw [updateAssoc_lookup_self _ _ _ _ (get_course_progress_lookup s cid)]
  rfl

theorem modifyCourse_fileWrites (s : PM) (cid : String)
    (f : CourseProgress → CourseProgress) (now : String) :
    (modifyCourse s cid f now).fileWrites = s.fileWrites + 1 := by
  unfold modifyCourse PM.save
  simp [get_course_progress_fileWrites]

theorem gccp_snd (s : PM) (cid : String) :
    (get_course_completion_percent s cid).2 = (get_course_progress s cid).2 := by
  unfold get_course_completion_percent
  dsimp only
  split <;> rfl

theorem iac_snd (s : PM) (cid url : String) :
    (is_activity_completed s cid url).2 = (get_course_progress s cid).2 := rfl

theorem gccp_nonneg (s : PM) (cid : String) :
    0 ≤ (get_course_completion_percent s cid).1 := by
  unfold get_course_completion_percent
  dsimp only
  split
  · norm_num
  · positivity

theorem courseOf_mark_completed (s : PM) (cid url now : String) :
    courseOf (mark_activity_completed s cid url now) cid =
      (if url ∈ (courseOf s cid).completed_activities then courseOf s cid
       else { courseOf s cid with
         completed_activities := (courseOf s cid).completed_activities ++ [url] }) :=
  courseOf_modifyCourse_self s cid _ now

theorem courseOf_mark_failed (s : PM) (cid url err now : String) :
    courseOf (mark_activity_failed s cid url err now) cid =
      { courseOf s cid with failed_activities :=
          (courseOf s cid).failed_activities ++
            [{ url := url, error := err, timestamp := now }] } :=
  courseOf_modifyCourse_self s cid _ now

theorem mark_completed_failed_unchanged (s : PM) (cid url now : String) :
    (courseOf (mark_activity_completed s cid url now) cid).failed_activities =
      (courseOf s cid).failed_activities := by
  rw [courseOf_mark_completed]
  split <;> rfl

theorem mark_completed_mem (s : PM) (cid url now : String) :
    url ∈ (courseOf (mark_activity_completed s cid url now) cid).completed_activities := by
  rw [courseOf_mark_completed]
  split
  · assumption
  · simp

/- ===================== claim C1 ======================================= -/

/-- Claim C1 (amended): get_course_completion_percent returns 0 when the
recorded total is 0, is always nonnegative, and is at most 100 whenever the
completed list is no longer than the recorded total; the original bound of
100 fails without that proviso (see the counterexample). -/
theorem claim_C1_completion_bound (s : PM) (cid : String) :
    0 ≤ (get_course_completion_percent s cid).1 ∧
    ((courseOf s cid).total_activities = 0 →
      (get_course_completion_percent s cid).1 = 0) ∧
    ((courseOf s cid).completed_activities.length ≤ (courseOf s cid).total_activities →
      (get_course_completion_percent s cid).1 ≤ 100) := by
  have hfst := get_course_progress_fst s cid
  unfold get_course_completion_percent
  dsimp only
  rw [hfst]
  split
  case isTrue h0 =>
    exact ⟨by norm_num, fun _ => by norm_num, fun _ => by norm_num⟩
  case isFalse h0 =>
    refine ⟨by positivity, fun h => absurd h h0, fun hle => ?_⟩
    have hpos : (0 : ℚ) < ((courseOf s cid).total_activities : ℚ) := by
      exact_mod_cast Nat.pos_of_ne_zero h0
    have h1 : ((courseOf s cid).completed_activities.length : ℚ) /
        ((courseOf s cid).total_activities : ℚ) ≤ 1 := by
      rw [div_le_one hpos]
      exact_mod_cast hle
    have h2 := mul_le_mul_of_nonneg_right h1 (show (0 : ℚ) ≤ 100 by norm_num)
    simpa using h2

/-- Claim C1 counterexample: with one recorded activity and two completed
urls the percent is 200, above the claimed bound of 100. -/
theorem claim_C1_counterexample :
    (get_course_completion_percent overfullPM "c").1 = 200 ∧
    ¬ (get_course_completion_percent overfullPM "c").1 ≤ 100 := by
  have h1 : (get_course_progress overfullPM "c").1 = courseRec ["a", "b"] 1 := rfl
  have h : (get_course_completion_percent overfullPM "c").1 = 200 := by
    unfold get_course_completion_percent
    dsimp only
    rw [h1]
    norm_num [courseRec, defaultCourseProgress]
  refine ⟨h, by rw [h]; norm_num⟩

/-- Claim C1 witness: concrete instance of the amended bound at the fresh
ledger, where the total is 0 and the percent is 0. -/
theorem claim_C1_witness :
    (courseOf initialPM "c1").total_activities = 0 ∧
    (get_course_completion_percent initialPM "c1").1 = 0 :=
  ⟨rfl, (claim_C1_completion_bound initialPM "c1").2.1 rfl⟩

/- ===================== claim C3 ======================================= -/

/-- Claim C3: marking the same activity completed twice leaves the
completed set unchanged by the second call and holding exactly one entry
for that url (stated for any ledger whose entry for the url is not already
duplicated, which covers every state the manager itself can build). -/
theorem claim_C3_idempotent_completion (s : PM) (cid url now1 now2 : String)
    (h : (courseOf s cid).completed_activities.count url ≤ 1) :
    ((courseOf (mark_activity_completed (mark_activity_completed s cid url now1)
        cid url now2) cid).completed_activities =
      (courseOf (mark_activity_completed s cid url now1) cid).completed_activities) ∧
    (courseOf (mark_activity_completed (mark_activity_completed s cid url now1)
        cid url now2) cid).completed_activities.count url = 1 := by
  have h2 := courseOf_mark_completed s cid url now1
  have h3 := courseOf_mark_completed (mark_activity_completed s cid url now1) cid url now2
  by_cases hm : url ∈ (courseOf s cid).completed_activities
  · rw [if_pos hm] at h2
    have hm1 : url ∈
        (courseOf (mark_activity_completed s cid url now1) cid).completed_activities := by
      rw [h2]; exact hm
    rw [if_pos hm1] at h3
    refine ⟨by rw [h3], ?_⟩
    rw [h3, h2]
    have hpos : 0 < (courseOf s cid).completed_activities.count url :=
      List.count_pos_iff.mpr hm
    omega
  · rw [if_neg hm] at h2
    have hm1 : url ∈
        (courseOf (mark_activity_completed s cid url now1) cid).completed_activities := by
      rw [h2]; simp
    rw [if_pos hm1] at h3
    refine ⟨by rw [h3], ?_⟩
    rw [h3, h2]
    simp [List.count_append, List.count_eq_zero.mpr hm]

/-- Claim C3 witness: concrete double insertion on the fresh ledger leaves
one entry. -/
theorem claim_C3_witness :
    (courseOf initialPM "c1").completed_activities.count "u" ≤ 1 ∧
    (courseOf (mark_activity_completed (mark_activity_completed initialPM "c1" "u" "t1")
        "c1" "u" "t2") "c1").completed_activities.count "u" = 1 :=
  ⟨by decide, (claim_C3_idempotent_completion initialPM "c1" "u" "t1" "t2" (by decide)).2⟩

/- ===================== claim C5 ======================================= -/

/-- Claim C5 counterexample: loading from a present but unparseable backing
file (an empty file raises the same way) propagates the parse error instead
of resetting to the default document. -/
theorem claim_C5_counterexample :
    ProgressManager.load (some (Except.error "Expecting value: line 1 column 1 (char 0)")) =
      Except.error "Expecting value: line 1 column 1 (char 0)" ∧
    ProgressManager.load (some (Except.error "Expecting value: line 1 column 1 (char 0)")) ≠
      Except.ok defaultGlobalProgress := by
  refine ⟨rfl, ?_⟩
  intro h
  simp [ProgressManager.load] at h

/-- Claim C5 (amended): loading from an absent backing file yields the
default document (zero global counters, empty course map, null last run);
loading from a present file returns the parse outcome unchanged, so an
empty or corrupt file raises instead of resetting. -/
theorem claim_C5_load_behavior (d : GlobalProgress) (e : String) :
    ProgressManager.load none = Except.ok defaultGlobalProgress ∧
    defaultGlobalProgress.global_stats.total_completed = 0 ∧
    defaultGlobalProgress.global_stats.total_skipped = 0 ∧
    defaultGlobalProgress.global_stats.total_failed = 0 ∧
    defaultGlobalProgress.courses = [] ∧
    defaultGlobalProgress.last_run = none ∧
    ProgressManager.load (some (Except.error e)) = Except.error e ∧
    ProgressManager.load (some (Except.ok d)) = Except.ok d :=
  ⟨rfl, rfl, rfl, rfl, rfl, rfl, rfl, rfl⟩

/- ===================== prioritizer lemmas ============================= -/

theorem priorityLE_of_key_eq {a b : Course × ℕ × ℚ} (h : a.2 = b.2) : priorityLE a b := by
  unfold priorityLE
  exact Or.inr ⟨congrArg Prod.fst h, le_of_eq (congrArg Prod.snd h).symm⟩

theorem filter_orderedInsert (x : Course × ℕ × ℚ) (l : List (Course × ℕ × ℚ))
    (k : ℕ × ℚ) :
    (List.orderedInsert priorityLE x l).filter (fun a => decide (a.2 = k)) =
      if x.2 = k then x :: l.filter (fun a => decide (a.2 = k))
      else l.filter (fun a => decide (a.2 = k)) := by
  induction l with
  | nil =>
    by_cases hx : x.2 = k <;> simp [List.orderedInsert, hx]
  | cons b t ih =>
    by_cases hle : priorityLE x b
    · simp only [List.orderedInsert, hle, if_true]
      by_cases hx : x.2 = k <;> simp [List.filter_cons, hx]
    · have hkey : ¬ x.2 = b.2 := fun he => hle (priorityLE_of_key_eq he)
      simp only [List.orderedInsert, hle, if_false]
      by_cases hb : b.2 = k
      · have hx : ¬ x.2 = k := fun he => hkey (he.trans hb.symm)
        simp [List.filter_cons, hb, hx, ih]
      · by_cases hx : x.2 = k <;> simp [List.filter_cons, hb, hx, ih]

theorem filter_insertionSort (l : List (Course × ℕ × ℚ)) (k : ℕ × ℚ) :
    (List.insertionSort priorityLE l).filter (fun a => decide (a.2 = k)) =
      l.filter (fun a => decide (a.2 = k)) := by
  induction l with
  | nil => rfl
  | cons x t ih =>
    simp only [List.insertionSort]
    rw [filter_orderedInsert]
    by_cases hx : x.2 = k <;> simp [List.filter_cons, hx, ih]

theorem annotateCourse_fst (s : PM) (c : Course) : (annotateCourse s c).1.1 = c := by
  unfold annotateCourse
  dsimp only
  split_ifs <;> rfl

theorem annotateCourses_map_fst (s : PM) (courses : List Course) :
    (annotateCourses s courses).1.map (fun a => a.1) = courses := by
  induction courses generalizing s with
  | nil => rfl
  | cons c rest ih =>
    simp [annotateCourses, annotateCourse_fst, ih]

theorem annotateCourse_bucket (s : PM) (c : Course) :
    ((annotateCourse s c).1.2.1 = 3 ↔ 100 ≤ (get_course_completion_percent s c.id).1) ∧
    ((annotateCourse s c).1.2.1 = 1 ↔
      (0 < (get_course_completion_percent s c.id).1 ∧
        (get_course_completion_percent s c.id).1 < 100)) ∧
    ((annotateCourse s c).1.2.1 = 2 ↔ (get_course_completion_percent s c.id).1 = 0) := by
  have hn := gccp_nonneg s c.id
  unfold annotateCourse
  dsimp only
  split_ifs with h1 h2
  · exact ⟨⟨fun _ => h1, fun _ => rfl⟩,
      ⟨fun hh => absurd hh (by norm_num), fun hh => absurd h1 (not_le.mpr hh.2)⟩,
      ⟨fun hh => absurd hh (by norm_num), fun hh => by rw [hh] at h1; norm_num at h1⟩⟩
  · exact ⟨⟨fun hh => absurd hh (by norm_num), fun hh => absurd hh h1⟩,
      ⟨fun _ => ⟨h2, not_le.mp h1⟩, fun _ => rfl⟩,
      ⟨fun hh => absurd hh (by norm_num),
        fun hh => by rw [hh] at h2; exact absurd h2 (lt_irrefl 0)⟩⟩
  · have hz : (get_course_completion_percent s c.id).1 = 0 :=
      le_antisymm (not_lt.mp h2) hn
    exact ⟨⟨fun hh => absurd hh (by norm_num), fun hh => by rw [hz] at hh; norm_num at hh⟩,
      ⟨fun hh => absurd hh (by norm_num),
        fun hh => by rw [hz] at hh; exact absurd hh.1 (lt_irrefl 0)⟩,
      ⟨fun _ => hz, fun _ => rfl⟩⟩

/- ===================== claim C4 ======================================= -/

/-- Claim C4: prioritize_courses permutes its input, orders it by ascending
priority bucket and then descending completion percent (the lexicographic
key order priorityLE on the annotated list), is stable (the annotated
entries of each fixed key keep their relative input order), assigns buckets
exactly as claimed (1 for strictly-between, 2 for zero, 3 for at least
100), and on the forty-percent/zero ledger maps [B, A] to [A, B]. -/
theorem claim_C4_prioritize (s : PM) (courses : List Course) :
    ((prioritize_courses s courses).1.Perm courses) ∧
    (List.Sorted priorityLE (prioritizedAnn s courses)) ∧
    (∀ k : ℕ × ℚ, (prioritizedAnn s courses).filter (fun a => decide (a.2 = k)) =
      (annotateCourses s courses).1.filter (fun a => decide (a.2 = k))) ∧
    (∀ c : Course,
      ((annotateCourse s c).1.2.1 = 3 ↔ 100 ≤ (get_course_completion_percent s c.id).1) ∧
      ((annotateCourse s c).1.2.1 = 1 ↔
        (0 < (get_course_completion_percent s c.id).1 ∧
          (get_course_completion_percent s c.id).1 < 100)) ∧
      ((annotateCourse s c).1.2.1 = 2 ↔ (get_course_completion_percent s c.id).1 = 0)) ∧
    ((prioritize_courses fortyZeroPM [courseB, courseA]).1 = [courseA, courseB]) := by
  refine ⟨?_, List.sorted_insertionSort priorityLE _,
    fun k => filter_insertionSort _ k, fun c => annotateCourse_bucket s c, ?_⟩
  · have hp := (List.perm_insertionSort priorityLE (annotateCourses s courses).1).map
      (fun a : Course × ℕ × ℚ => a.1)
    rw [annotateCourses_map_fst] at hp
    exact hp
  · have hA : (get_course_completion_percent fortyZeroPM "A").1 = 40 := by
      have h1 : (get_course_progress fortyZeroPM "A").1 = courseRec ["u1", "u2"] 5 := rfl
      unfold get_course_completion_percent
      dsimp only
      rw [h1]
      norm_num [courseRec, defaultCourseProgress]
    have hB : (get_course_completion_percent fortyZeroPM "B").1 = 0 := by
      have h1 : (get_course_progress fortyZeroPM "B").1 = courseRec [] 3 := rfl
      unfold get_course_completion_percent
      dsimp only
      rw [h1]
      norm_num [courseRec, defaultCourseProgress]
    have hsB : (get_course_completion_percent fortyZeroPM "B").2 = fortyZeroPM := rfl
    have haB : annotateCourse fortyZeroPM courseB = ((courseB, 2, 0), fortyZeroPM) := by
      unfold annotateCourse
      dsimp only
      rw [show courseB.id = "B" from rfl, hB, hsB]
      norm_num
    have hsA : (get_course_completion_percent fortyZeroPM "A").2 = fortyZeroPM := rfl
    have haA : annotateCourse fortyZeroPM courseA = ((courseA, 1, 40), fortyZeroPM) := by
      unfold annotateCourse
      dsimp only
      rw [show courseA.id = "A" from rfl, hA, hsA]
      norm_num
    have hann : (annotateCourses fortyZeroPM [courseB, courseA]).1 =
        [(courseB, 2, 0), (courseA, 1, 40)] := by
      simp [annotateCourses, haB, haA]
    have hnle : ¬ priorityLE (courseB, 2, 0) (courseA, 1, 40) := by
      unfold priorityLE
      norm_num
    unfold prioritize_courses prioritizedAnn
    dsimp only
    rw [hann]
    simp [List.insertionSort, List.orderedInsert, hnle]

/- ===================== claim C10 ====================================== -/

/-- Claim C10: on a course id absent from the in-memory course map, the
read-only queries insert the default record (status not_started, empty
lists, zero total) into the document — get_course_progress directly, and
is_activity_completed, get_course_completion_percent and prioritize_courses
through it — changing the in-memory state while writing nothing to the
file. -/
theorem claim_C10_reads_mutate (s : PM) (cid url : String)
    (h : lookupA s.data.courses cid = none) :
    ((get_course_progress s cid).2.data.courses =
      s.data.courses ++ [(cid, defaultCourseProgress)]) ∧
    (lookupA (get_course_progress s cid).2.data.courses cid = some defaultCourseProgress) ∧
    ((get_course_progress s cid).2 ≠ s) ∧
    ((get_course_progress s cid).2.fileWrites = s.fileWrites) ∧
    ((is_activity_completed s cid url).2 = (get_course_progress s cid).2) ∧
    ((get_course_completion_percent s cid).2 = (get_course_progress s cid).2) ∧
    (defaultCourseProgress.status = "not_started" ∧
      defaultCourseProgress.completed_activities = [] ∧
      defaultCourseProgress.failed_activities = [] ∧
      defaultCourseProgress.total_activities = 0) ∧
    (∀ nm curl : String, lookupA
        ((prioritize_courses s [{ name := nm, url := curl, id := cid }]).2).data.courses
        cid = some defaultCourseProgress) := by
  have h1 : (get_course_progress s cid).2.data.courses =
      s.data.courses ++ [(cid, defaultCourseProgress)] := by
    simp [get_course_progress, h]
  have h2 : lookupA (get_course_progress s cid).2.data.courses cid =
      some defaultCourseProgress := by
    have := get_course_progress_lookup s cid
    rw [courseOf] at this
    rw [h] at this
    exact this
  refine ⟨h1, h2, ?_, get_course_progress_fileWrites s cid, iac_snd s cid url,
    gccp_snd s cid, ⟨rfl, rfl, rfl, rfl⟩, ?_⟩
  · intro he
    rw [he] at h1
    have := congrArg List.length h1
    simp at this
  · intro nm curl
    have hidem : (prioritize_courses s [{ name := nm, url := curl, id := cid }]).2 =
        (get_course_progress s cid).2 := by
      unfold prioritize_courses annotateCourses annotateCourse
      dsimp only
      split_ifs <;> simp [annotateCourses, gccp_snd]
    rw [hidem]
    exact h2

/- ===================== retry-loop lemmas ============================== -/

theorem retryLoop_succ (oracle : ℕ → Option String) (a : Activity)
    (cn cid now : String) (attempt remaining : ℕ) (w : W) :
    retryLoop oracle a cn cid now attempt (remaining + 1) w =
      (match oracle attempt with
       | none => ⟨true, attemptSuccess w a cn cid now, 1, []⟩
       | some e =>
         if attempt < max_retries then
           let r := retryLoop oracle a cn cid now (attempt + 1) remaining w
           ⟨r.ok, r.w, r.attempts + 1, 1 :: r.sleeps⟩
         else ⟨false, attemptFail w a cn cid now e, 1, []⟩) := rfl

theorem retryLoop_success (oracle : ℕ → Option String) (a : Activity)
    (cn cid now : String) (w : W) :
    ∀ (remaining attempt k : ℕ), attempt ≤ k → k < attempt + remaining →
      k ≤ max_retries →
      (∀ j, attempt ≤ j → j < k → oracle j ≠ none) → oracle k = none →
      retryLoop oracle a cn cid now attempt remaining w =
        ⟨true, attemptSuccess w a cn cid now, k + 1 - attempt,
          List.replicate (k - attempt) 1⟩ := by
  intro remaining
  induction remaining with
  | zero => intro attempt k h1 h2 h3 hprev hk; omega
  | succ rem ih =>
    intro attempt k h1 h2 h3 hprev hk
    rw [retryLoop_succ]
    by_cases hak : attempt = k
    · subst hak
      rw [hk]
      have hs1 : attempt + 1 - attempt = 1 := by omega
      have hs2 : attempt - attempt = 0 := by omega
      rw [hs1, hs2]
      rfl
    · have hne := hprev attempt (le_refl _) (by omega)
      obtain ⟨e1, he1⟩ := Option.ne_none_iff_exists'.mp hne
      rw [he1]
      have hlt : attempt < max_retries := by
        have h3v : max_retries = 3 := rfl
        omega
      show (if attempt < max_retries then
          let r := retryLoop oracle a cn cid now (attempt + 1) rem w
          (⟨r.ok, r.w, r.attempts + 1, 1 :: r.sleeps⟩ : RetryOutcome)
        else ⟨false, attemptFail w a cn cid now e1, 1, []⟩) =
        ⟨true, attemptSuccess w a cn cid now, k + 1 - attempt,
          List.replicate (k - attempt) 1⟩
      rw [if_pos hlt]
      dsimp only
      rw [ih (attempt + 1) k (by omega) (by omega) h3
        (fun j hj1 hj2 => hprev j (by omega) hj2) hk]
      have hs1 : k + 1 - (attempt + 1) + 1 = k + 1 - attempt := by omega
      have hs2 : k - attempt = (k - (attempt + 1)) + 1 := by omega
      dsimp only
      rw [hs1, hs2, List.replicate_succ]

theorem paw_run (oracle : ℕ → Option String) (w : W) (a : Activity)
    (cn cid now : String) (hc : a.is_completed = false) (hs : a.should_skip = false) :
    process_activity_with_retry oracle w a cn cid now =
      retryLoop oracle a cn cid now 1 max_retries w := by
  unfold process_activity_with_retry
  rw [hc, hs]
  simp

/- ===================== claim C2 ======================================= -/

/-- Claim C2: on a non-skipped, non-completed activity whose every attempt
raises, the retry controller runs exactly max_retries = 3 attempts,
sleeping the fixed one-second pause between consecutive attempts, appends
exactly one failure record (url, last error, timestamp) to the ledger via
mark_activity_failed, counts one failed activity, and returns false; on a
first success at any attempt k within the budget it returns true after
exactly k attempts with no failure record appended. -/
theorem claim_C2_retry_ceiling (oracle : ℕ → Option String) (e : ℕ → String)
    (w : W) (a : Activity) (course_name cid now : String)
    (hc : a.is_completed = false) (hs : a.should_skip = false) :
    (let r := process_activity_with_retry (fun n => some (e n)) w a course_name cid now
     r.ok = false ∧ r.attempts = 3 ∧ r.sleeps = [1, 1] ∧
     (courseOf r.w.pm cid).failed_activities =
       (courseOf w.pm cid).failed_activities ++
         [{ url := a.url, error := e 3, timestamp := now }] ∧
     r.w.stats.activities_failed = w.stats.activities_failed + 1) ∧
    (∀ k : ℕ, 1 ≤ k → k ≤ 3 → (∀ j, 1 ≤ j → j < k → oracle j ≠ none) →
      oracle k = none →
      (let r := process_activity_with_retry oracle w a course_name cid now
       r.ok = true ∧ r.attempts = k ∧
       (courseOf r.w.pm cid).failed_activities =
         (courseOf w.pm cid).failed_activities)) := by
  constructor
  · dsimp only
    rw [paw_run _ _ _ _ _ _ hc hs]
    have hrun : retryLoop (fun n => some (e n)) a course_name cid now 1 max_retries w =
        ⟨false, attemptFail w a course_name cid now (e 3), 3, [1, 1]⟩ := rfl
    rw [hrun]
    refine ⟨rfl, rfl, rfl, ?_, rfl⟩
    have := congrArg CourseProgress.failed_activities
      (courseOf_mark_failed w.pm cid a.url (e 3) now)
    simpa using this
  · intro k hk1 hk3 hprev hsucc
    dsimp only
    rw [paw_run _ _ _ _ _ _ hc hs]
    have hmax : max_retries = 3 := rfl
    rw [retryLoop_success oracle a course_name cid now w max_retries 1 k hk1
      (by omega) (by omega) hprev hsucc]
    refine ⟨rfl, ?_, ?_⟩
    · show k + 1 - 1 = k
      omega
    · exact mark_completed_failed_unchanged w.pm cid a.url now

/-- Claim C2 witness: a concretely always-failing unit of work on a fresh
page activity runs three attempts. -/
theorem claim_C2_witness :
    freshPageActivity.is_completed = false ∧ freshPageActivity.should_skip = false ∧
    (process_activity_with_retry (fun _ => some "boom") w0 freshPageActivity
      "CN" "c1" "t").attempts = 3 :=
  ⟨rfl, rfl,
    ((claim_C2_retry_ceiling (fun _ => some "boom") (fun _ => "boom") w0
      freshPageActivity "CN" "c1" "t" rfl rfl).1).2.1⟩

/- ===================== claim C8 ======================================= -/

/-- Claim C8: an already-completed activity short-circuits to true with no
attempt, no sleep and no state change at all; a skip-eligible activity
short-circuits to true with no attempt, no ledger change, no change to the
completed or failed statistics, and at most a skipped-tally update (the
quiz or assignment lists via log_skipped). -/
theorem claim_C8_short_circuit (oracle : ℕ → Option String) (w : W) (a : Activity)
    (course_name cid now : String) :
    (a.is_completed = true →
      process_activity_with_retry oracle w a course_name cid now = ⟨true, w, 0, []⟩) ∧
    (a.is_completed = false → a.should_skip = true →
      (let r := process_activity_with_retry oracle w a course_name cid now
       r.ok = true ∧ r.attempts = 0 ∧ r.sleeps = [] ∧ r.w.pm = w.pm ∧
       r.w.stats.activities_completed = w.stats.activities_completed ∧
       r.w.stats.activities_failed = w.stats.activities_failed ∧
       r.w.stats.errors = w.stats.errors ∧
       r.w.stats.completed_activities = w.stats.completed_activities ∧
       r.w.stats.activities_skipped =
         (if strIn "quiz" a.type || strIn "assign" a.type then
           w.stats.activities_skipped + 1 else w.stats.activities_skipped))) := by
  constructor
  · intro h
    unfold process_activity_with_retry
    rw [h]
    simp
  · intro h1 h2
    dsimp only
    have hpaw : process_activity_with_retry oracle w a course_name cid now =
        ⟨true, { w with stats :=
          (if strIn "quiz" a.type then w.stats.log_skipped course_name a.name "quiz"
           else if strIn "assign" a.type then
             w.stats.log_skipped course_name a.name "assignment"
           else w.stats) }, 0, []⟩ := by
      unfold process_activity_with_retry
      rw [h1, h2]
      simp
    rw [hpaw]
    refine ⟨rfl, rfl, rfl, rfl, ?_, ?_, ?_, ?_, ?_⟩ <;>
      by_cases hq : strIn "quiz" a.type <;>
      by_cases ha : strIn "assign" a.type <;>
      simp [hq, ha, Stats.log_skipped,
        show strIn "quiz" (lowerStr "quiz") = true from rfl,
        show strIn "quiz" (lowerStr "assignment") = false from rfl,
        show strIn "assign" (lowerStr "assignment") = true from rfl]

/-- Claim C8 witness: the concrete quiz activity short-circuits with zero
attempts. -/
theorem claim_C8_witness :
    quizActivity.is_completed = false ∧ quizActivity.should_skip = true ∧
    (process_activity_with_retry (fun _ => some "boom") w0 quizActivity
      "CN" "c1" "t").attempts = 0 :=
  ⟨rfl, rfl,
    ((claim_C8_short_circuit (fun _ => some "boom") w0 quizActivity
      "CN" "c1" "t").2 rfl rfl).2.1⟩

/- ===================== claim C6 ======================================= -/

/-- Claim C6 counterexample: a course at zero percent (four known
activities, none completed) keeps its previous status after the
post-processing status update — it is not set to in_progress. -/
theorem claim_C6_counterexample :
    (courseOf (update_course_status zeroPctPM "c" "t") "c").status = "not_started" ∧
    (courseOf (update_course_status zeroPctPM "c" "t") "c").status ≠ "in_progress" := by
  have hz : (get_course_completion_percent zeroPctPM "c").1 = 0 := by
    have h1 : (get_course_progress zeroPctPM "c").1 = courseRec [] 4 := rfl
    unfold get_course_completion_percent
    dsimp only
    rw [h1]
    norm_num [courseRec, defaultCourseProgress]
  have hstep : update_course_status zeroPctPM "c" "t" =
      PM.save (get_course_completion_percent zeroPctPM "c").2 "t" := by
    unfold update_course_status
    dsimp only
    rw [hz]
    norm_num
  have hstat : (courseOf (update_course_status zeroPctPM "c" "t") "c").status =
      "not_started" := by
    rw [hstep]
    rfl
  exact ⟨hstat, by rw [hstat]; decide⟩

/-- Claim C6 (amended): after processing, the persisted status is set to
completed when the completion percent is at least 100 and to in_progress
when it is strictly between 0 and 100; at exactly 0 the status is left
unchanged (there is no else branch), and in every case one save occurs. -/
theorem claim_C6_status_update (s : PM) (cid now : String) :
    (100 ≤ (get_course_completion_percent s cid).1 →
      (courseOf (update_course_status s cid now) cid).status = "completed") ∧
    (0 < (get_course_completion_percent s cid).1 →
      (get_course_completion_percent s cid).1 < 100 →
      (courseOf (update_course_status s cid now) cid).status = "in_progress") ∧
    ((get_course_completion_percent s cid).1 = 0 →
      (courseOf (update_course_status s cid now) cid).status = (courseOf s cid).status) ∧
    ((update_course_status s cid now).fileWrites = s.fileWrites + 1) := by
  unfold update_course_status
  dsimp only
  split_ifs with h1 h2
  · refine ⟨fun _ => ?_, fun _ hlt => absurd h1 (not_le.mpr hlt),
      fun hz => by rw [hz] at h1; norm_num at h1, ?_⟩
    · rw [courseOf_modifyCourse_self]
    · rw [modifyCourse_fileWrites, gccp_snd, get_course_progress_fileWrites]
  · refine ⟨fun hge => absurd hge h1, fun _ _ => ?_,
      fun hz => by rw [hz] at h2; exact absurd h2 (lt_irrefl 0), ?_⟩
    · rw [courseOf_modifyCourse_self]
    · rw [modifyCourse_fileWrites, gccp_snd, get_course_progress_fileWrites]
  · refine ⟨fun hge => absurd hge h1, fun hpos _ => absurd hpos h2, fun _ => ?_, ?_⟩
    · rw [courseOf_save, gccp_snd, courseOf_gcp]
    · simp [PM.save, gccp_snd, get_course_progress_fileWrites]

/-- Claim C6 witness: a course at fifty percent is set to in_progress. -/
theorem claim_C6_witness :
    0 < (get_course_completion_percent halfPM "c").1 ∧
    (get_course_completion_percent halfPM "c").1 < 100 ∧
    (courseOf (update_course_status halfPM "c" "t") "c").status = "in_progress" := by
  have h50 : (get_course_completion_percent halfPM "c").1 = 50 := by
    have h1 : (get_course_progress halfPM "c").1 = courseRec ["u"] 2 := rfl
    unfold get_course_completion_percent
    dsimp only
    rw [h1]
    norm_num [courseRec, defaultCourseProgress]
  exact ⟨by rw [h50]; norm_num, by rw [h50]; norm_num,
    (claim_C6_status_update halfPM "c" "t").2.1
      (by rw [h50]; norm_num) (by rw [h50]; norm_num)⟩

/- ===================== claim C7 ======================================= -/

/-- Claim C7 (code bug): completion is recorded under the base-prefixed url
but re-discovery looks the raw href up, so for a relative href the
completed activity is not re-detected: after marking the discovered page
completed, discovering the same href again yields is_completed = false even
though the stored url is present in the completed set. -/
theorem claim_C7_resume_lookup_mismatch :
    activityUrlOf "/mod/page/view.php?id=5" =
      "https://lms.miva.university/mod/page/view.php?id=5" ∧
    (is_activity_completed
      (mark_activity_completed initialPM "101" (activityUrlOf "/mod/page/view.php?id=5") "t0")
      "101" (activityUrlOf "/mod/page/view.php?id=5")).1 = true ∧
    ((discoverActivity
      (mark_activity_completed initialPM "101" (activityUrlOf "/mod/page/view.php?id=5") "t0")
      "101" "/mod/page/view.php?id=5" "Page 5").1).is_completed = false := by
  refine ⟨by decide, by decide, by decide⟩

/- ===================== batch-scheduler lemmas ========================= -/

theorem chunksGo_nil_input (fuel k : ℕ) : chunksGo fuel k [] = [] := by
  cases fuel <;> cases k <;> rfl

theorem chunksGo_flatten : ∀ (fuel k : ℕ) (l : List Activity), 0 < k →
    l.length ≤ fuel → (chunksGo fuel k l).flatten = l := by
  intro fuel
  induction fuel with
  | zero =>
    intro k l hk hl
    cases l with
    | nil => cases k <;> rfl
    | cons x xs => simp at hl
  | succ n ih =>
    intro k l hk hl
    cases l with
    | nil => cases k <;> rfl
    | cons x xs =>
      cases k with
      | zero => exact absurd hk (lt_irrefl 0)
      | succ k =>
        show (List.take (k + 1) (x :: xs) ::
          chunksGo n (k + 1) (List.drop (k + 1) (x :: xs))).flatten = x :: xs
        rw [List.flatten_cons,
          ih (k + 1) _ (by omega) (by rw [List.length_drop]; omega)]
        exact List.take_append_drop (k + 1) (x :: xs)

theorem chunksGo_mem : ∀ (fuel k : ℕ) (l : List Activity), 0 < k →
    l.length ≤ fuel → ∀ b ∈ chunksGo fuel k l, b ≠ [] ∧ b.length ≤ k := by
  intro fuel
  induction fuel with
  | zero =>
    intro k l hk hl b hb
    cases l with
    | nil => rw [chunksGo_nil_input] at hb; simp at hb
    | cons x xs => simp at hl
  | succ n ih =>
    intro k l hk hl b hb
    cases l with
    | nil => rw [chunksGo_nil_input] at hb; simp at hb
    | cons x xs =>
      cases k with
      | zero => exact absurd hk (lt_irrefl 0)
      | succ k =>
        rw [show chunksGo (n + 1) (k + 1) (x :: xs) = List.take (k + 1) (x :: xs) ::
          chunksGo n (k + 1) (List.drop (k + 1) (x :: xs)) from rfl] at hb
        rcases List.mem_cons.mp hb with hb1 | hb2
        · subst hb1
          refine ⟨?_, List.length_take_le (k + 1) (x :: xs)⟩
          rw [List.take_succ_cons]
          simp
        · exact ih (k + 1) _ (by omega) (by rw [List.length_drop]; omega) b hb2

theorem chunksGo_getElem_length : ∀ (fuel k : ℕ) (l : List Activity), 0 < k →
    l.length ≤ fuel → ∀ (i : ℕ) (b : List Activity),
      i + 1 < (chunksGo fuel k l).length → (chunksGo fuel k l)[i]? = some b →
      b.length = k := by
  intro fuel
  induction fuel with
  | zero =>
    intro k l hk hl i b hi1 hb
    cases l with
    | nil => rw [chunksGo_nil_input] at hb; simp at hb
    | cons x xs => simp at hl
  | succ n ih =>
    intro k l hk hl i b hi1 hb
    cases l with
    | nil => rw [chunksGo_nil_input] at hb; simp at hb
    | cons x xs =>
      cases k with
      | zero => exact absurd hk (lt_irrefl 0)
      | succ k =>
        have hred : chunksGo (n + 1) (k + 1) (x :: xs) = List.take (k + 1) (x :: xs) ::
            chunksGo n (k + 1) (List.drop (k + 1) (x :: xs)) := rfl
        rw [hred] at hi1 hb
        cases i with
        | zero =>
          have hb0 : b = List.take (k + 1) (x :: xs) := by
            simp at hb
            exact hb.symm
          have hrest : chunksGo n (k + 1) (List.drop (k + 1) (x :: xs)) ≠ [] := by
            intro h0
            rw [h0] at hi1
            simp at hi1
          have hdrop : List.drop (k + 1) (x :: xs) ≠ [] := by
            intro h0
            rw [h0, chunksGo_nil_input] at hrest
            exact hrest rfl
          have hlong : k + 1 < (x :: xs).length := by
            have := List.length_pos.mpr hdrop
            rw [List.length_drop] at this
            omega
          rw [hb0, List.length_take]
          omega
        | succ i =>
          have hb1 : (chunksGo n (k + 1) (List.drop (k + 1) (x :: xs)))[i]? = some b := by
            simpa using hb
          have hi2 : i + 1 < (chunksGo n (k + 1) (List.drop (k + 1) (x :: xs))).length := by
            simpa using hi1
          exact ih (k + 1) _ (by omega) (by rw [List.length_drop]; omega) i b hi2 hb1

theorem flatten_tag_mono (f : BatchEv → ℕ) :
    ∀ (parts : List (List BatchEv)) (c : ℕ),
      (∀ i (hi : i < parts.length), ∀ e ∈ parts.get ⟨i, hi⟩, f e = c + i) →
      ∀ (m m' : ℕ) (x y : BatchEv), parts.flatten[m]? = some x →
        parts.flatten[m']? = some y → f x < f y → m < m' := by
  intro parts
  induction parts with
  | nil =>
    intro c htag m m' x y hx hy hlt
    simp at hx
  | cons p ps ih =>
    intro c htag m m' x y hx hy hlt
    have hp0 : ∀ e ∈ p, f e = c := by
      intro e he
      have h0 := htag 0 (by simp) e he
      omega
    have hps : ∀ i (hi : i < ps.length), ∀ e ∈ ps.get ⟨i, hi⟩, f e = (c + 1) + i := by
      intro i hi e he
      have h2 := htag (i + 1) (by simpa using Nat.succ_lt_succ hi) e he
      omega
    rw [List.flatten_cons] at hx hy
    by_cases hm : m < p.length
    · have hxp : x ∈ p := by
        rw [List.getElem?_append, if_pos hm] at hx
        exact List.getElem?_mem hx
      have hfx : f x = c := hp0 x hxp
      by_cases hm' : m' < p.length
      · have hyp : y ∈ p := by
          rw [List.getElem?_append, if_pos hm'] at hy
          exact List.getElem?_mem hy
        have hfy : f y = c := hp0 y hyp
        omega
      · omega
    · rw [List.getElem?_append, if_neg hm] at hx
      have hxm : x ∈ ps.flatten := List.getElem?_mem hx
      have hfx : c + 1 ≤ f x := by
        obtain ⟨l0, hl0, hxl0⟩ := List.mem_flatten.mp hxm
        rcases List.mem_iff_get.mp hl0 with ⟨⟨i, hi⟩, hgi⟩
        have := hps i hi x (by rw [hgi]; exact hxl0)
        omega
      by_cases hm' : m' < p.length
      · have hyp : y ∈ p := by
          rw [List.getElem?_append, if_pos hm'] at hy
          exact List.getElem?_mem hy
        have hfy : f y = c := hp0 y hyp
        omega
      · rw [List.getElem?_append, if_neg hm'] at hy
        have := ih (c + 1) hps (m - p.length) (m' - p.length) x y hx hy hlt
        omega

/- ===================== claim C9 ======================================= -/

/-- Claim C9: the scheduler first filters to activities that are neither
completed nor skip-eligible, slices that list into consecutive batches of
the configured width whose concatenation is the filtered list in order,
with every non-final batch of size exactly the width and the final batch
nonempty and no larger; with width 2 and five outstanding activities the
sizes are [2, 2, 1]; and in every admissible execution trace every terminal
event of batch n precedes every start event of batch n + 1 (the gather
barrier). -/
theorem claim_C9_batch_scheduler (k : ℕ) (acts : List Activity) (hk : 0 < k) :
    ((batchesOf k acts).flatten = toProcess acts) ∧
    (∀ b ∈ batchesOf k acts, b ≠ [] ∧ b.length ≤ k) ∧
    (∀ (i : ℕ) (b : List Activity), i + 1 < (batchesOf k acts).length →
      (batchesOf k acts)[i]? = some b → b.length = k) ∧
    ((batchesOf 2 fiveFresh).map List.length = [2, 2, 1]) ∧
    (∀ t : List BatchEv, IsSchedule k acts t →
      ∀ (m m' n j j' : ℕ), t[m]? = some (BatchEv.terminal n j) →
        t[m']? = some (BatchEv.start (n + 1) j') → m < m') := by
  refine ⟨chunksGo_flatten _ _ _ hk (le_refl _),
    fun b hb => chunksGo_mem _ _ _ hk (le_refl _) b hb,
    fun i b hi1 hb => chunksGo_getElem_length _ _ _ hk (le_refl _) i b hi1 hb,
    by decide, ?_⟩
  intro t hsch m m' n j j' hm hm'
  obtain ⟨parts, ht, hlen, htr⟩ := hsch
  subst ht
  have htag : ∀ i (hi : i < parts.length), ∀ e ∈ parts.get ⟨i, hi⟩,
      BatchEv.batchIdx e = 0 + i := by
    intro i hi e he
    have hbn : i < (batchesOf k acts).length := by
      rw [← hlen]
      exact hi
    have := (htr i hi hbn).1 e he
    omega
  refine flatten_tag_mono BatchEv.batchIdx parts 0 htag m m' _ _ hm hm' ?_
  simp [BatchEv.batchIdx]

/-- Claim C9 witness: the scheduler invariants instantiated at width 2 and
the five fresh activities. -/
theorem claim_C9_witness :
    0 < 2 ∧ (batchesOf 2 fiveFresh).flatten = toProcess fiveFresh :=
  ⟨by decide, (claim_C9_batch_scheduler 2 fiveFresh (by decide)).1⟩

/-- Claim C10 witness: the fresh ledger has no record for the course, and a
single read inserts the default record. -/
theorem claim_C10_witness :
    lookupA initialPM.data.courses "c1" = none ∧
    lookupA (get_course_progress initialPM "c1").2.data.courses "c1" =
      some defaultCourseProgress :=
  ⟨rfl, (claim_C10_reads_mutate initialPM "c1" "u" rfl).2.1⟩
